import Mathlib

set_option maxRecDepth 40000

/-!
Verification of the external Sort / Top-N execution core:
a shallow embedding of `executor/sort.go` and the `chunk` package
(`RowContainer`, `SortedRowContainer`, spill actions), with theorems
settling the behavioural claims about it.

Rows are modelled as lists of integer column values (the scenarios in the
spec use integer-typed sort keys; the comparator provider `GetCompareFunc`
is external to the sources and is modelled from the spec as the signed
three-way integer comparison). Chunks are lists of rows, the in-memory
`List` and the on-disk `ListInDisk` are lists of chunks, and Go's
panicking out-of-range accesses are totalised with default values.
-/

namespace TidbSort

/-- A row: the values of its (integer-typed) columns. -/
abbrev Row := List Int

/-- A chunk (row batch): a batch of rows sharing a schema. -/
abbrev Chunk := List Row

/-- RowPtr from the chunk package: identifies a row by chunk index and
in-chunk row index. -/
structure RowPtr where
  chkIdx : Nat
  rowIdx : Nat
deriving DecidableEq, Repr, Inhabited

/-- CompareFunc: compares column `i` of the first row with column `j` of the
second, returning a negative, zero or positive integer. -/
abbrev CompareFunc := Row → Nat → Row → Nat → Int

/-- Modelled from the spec: the comparator provider `GetCompareFunc` (not under
the sources) applied to an integer column type — the SQL three-way comparison
on integers. -/
def intCmp : CompareFunc := fun a i b j =>
  let x := a.getD i 0
  let y := b.getD j 0
  if x < y then -1 else if y < x then 1 else 0

/-- The comparator list `keyCmpFuncs` built by `initCompareFuncs` when every
key column has integer type. -/
def intCmps (keyColumns : List Nat) : List CompareFunc :=
  keyColumns.map fun _ => intCmp

/-- The composite comparator `lessRow` (identical in `SortExec.lessRow` and
`SortedRowContainer.lessRow`): first nonzero column comparison decides, with
the sign flipped on descending columns; all keys equal yields `false`. -/
def lessRow : List Nat → List Bool → List CompareFunc → Row → Row → Bool
  | c :: cs, d :: ds, f :: fs, a, b =>
    let cmp := f a c b c
    let cmp2 := if d then -cmp else cmp
    if cmp2 < 0 then true
    else if 0 < cmp2 then false
    else lessRow cs ds fs a b
  | _, _, _, _, _ => false

/-- The inverted composite comparator `topNChunkHeap.greaterRow`: true when the
first row sorts strictly later than the second under the requested order. -/
def greaterRow : List Nat → List Bool → List CompareFunc → Row → Row → Bool
  | c :: cs, d :: ds, f :: fs, a, b =>
    let cmp := f a c b c
    let cmp2 := if d then -cmp else cmp
    if 0 < cmp2 then true
    else if cmp2 < 0 then false
    else greaterRow cs ds fs a b
  | _, _, _, _, _ => false

/-- Orientation of a key value by its descending flag: descending columns
compare like ascending columns on negated values. -/
def orient (d : Bool) (x : Int) : Int := if d then -x else x

theorem lessRow_intCmps_cons (c : Nat) (cs : List Nat) (d : Bool) (ds : List Bool)
    (a b : Row) :
    lessRow (c :: cs) (d :: ds) (intCmps (c :: cs)) a b =
      (if orient d (a.getD c 0) < orient d (b.getD c 0) then true
       else if orient d (b.getD c 0) < orient d (a.getD c 0) then false
       else lessRow cs ds (intCmps cs) a b) := by
  have h : intCmps (c :: cs) = intCmp :: intCmps cs := rfl
  rw [h]
  simp only [lessRow, intCmp, orient]
  cases d <;>
    rcases lt_trichotomy (a.getD c 0) (b.getD c 0) with h1 | h1 | h1 <;>
    simp only [Bool.false_eq_true, if_false, if_true, h1] <;>
    split_ifs <;> first | rfl | omega

theorem lessRow_intCmps_asymm :
    ∀ (cols : List Nat) (desc : List Bool) (a b : Row),
      lessRow cols desc (intCmps cols) a b = true →
      lessRow cols desc (intCmps cols) b a = false
  | [], _, a, b => by simp [lessRow]
  | _ :: _, [], a, b => by simp [lessRow]
  | c :: cs, d :: ds, a, b => by
    rw [lessRow_intCmps_cons, lessRow_intCmps_cons]
    rcases lt_trichotomy (orient d (a.getD c 0)) (orient d (b.getD c 0)) with h1 | h1 | h1
    · intro _
      rw [if_neg (by omega), if_pos h1]
    · rw [h1]
      simp only [lt_irrefl, if_false]
      exact lessRow_intCmps_asymm cs ds a b
    · intro h
      rw [if_neg (by omega), if_pos h1] at h
      exact absurd h (by simp)

theorem lessRow_intCmps_le_trans :
    ∀ (cols : List Nat) (desc : List Bool) (a b e : Row),
      lessRow cols desc (intCmps cols) b a = false →
      lessRow cols desc (intCmps cols) e b = false →
      lessRow cols desc (intCmps cols) e a = false
  | [], _, a, b, e => by simp [lessRow]
  | _ :: _, [], a, b, e => by simp [lessRow]
  | c :: cs, d :: ds, a, b, e => by
    rw [lessRow_intCmps_cons, lessRow_intCmps_cons, lessRow_intCmps_cons]
    intro h1 h2
    rcases lt_trichotomy (orient d (b.getD c 0)) (orient d (a.getD c 0)) with hba | hba | hba
    · rw [if_pos hba] at h1
      exact absurd h1 (by simp)
    · rcases lt_trichotomy (orient d (e.getD c 0)) (orient d (b.getD c 0)) with heb | heb | heb
      · rw [if_pos heb] at h2
        exact absurd h2 (by simp)
      · rw [if_neg (by omega), if_neg (by omega)] at h1
        rw [if_neg (by omega), if_neg (by omega)] at h2
        rw [if_neg (by omega), if_neg (by omega)]
        exact lessRow_intCmps_le_trans cs ds a b e h1 h2
      · rw [if_neg (by omega), if_pos (by omega)]
    · rcases lt_trichotomy (orient d (e.getD c 0)) (orient d (b.getD c 0)) with heb | heb | heb
      · rw [if_pos heb] at h2
        exact absurd h2 (by simp)
      · rw [if_neg (by omega), if_pos (by omega)]
      · rw [if_neg (by omega), if_pos (by omega)]

/-- Totality of the non-strict order induced by `lessRow`. -/
theorem lessRow_intCmps_total (cols : List Nat) (desc : List Bool) (a b : Row) :
    lessRow cols desc (intCmps cols) b a = false ∨
    lessRow cols desc (intCmps cols) a b = false := by
  by_cases h : lessRow cols desc (intCmps cols) a b = true
  · exact Or.inl (lessRow_intCmps_asymm cols desc a b h)
  · exact Or.inr (by simpa using h)

/-- Row lookup in an in-memory chunk list (`List.GetRow`): index the chunk by
`chkIdx`, then the row by `rowIdx`. Go panics out of range; the model returns
an empty row. -/
def getRowInList (recs : List Chunk) (p : RowPtr) : Row :=
  (recs.getD p.chkIdx []).getD p.rowIdx []

/-- The pointers of one chunk, in row order. -/
def chunkPtrs (chkIdx : Nat) (chk : Chunk) : List RowPtr :=
  (List.range chk.length).map fun r => ⟨chkIdx, r⟩

/-- Row pointers of all chunks starting at chunk index `i`, in insertion
order (the scan performed by `InitPointersAndSort` and `InitPointers`). -/
def allPtrsFrom : Nat → List Chunk → List RowPtr
  | _, [] => []
  | i, chk :: rest => chunkPtrs i chk ++ allPtrsFrom (i + 1) rest

/-- Row pointers of all rows of a chunk list, in insertion order. -/
def allPtrs (recs : List Chunk) : List RowPtr := allPtrsFrom 0 recs

/-- Total number of rows of a chunk list (`List.Len`): the sum of the chunk
lengths. -/
def numRowsL (recs : List Chunk) : Nat := (recs.map List.length).sum

theorem numRowsL_eq_length_flatten (recs : List Chunk) :
    numRowsL recs = recs.flatten.length := by
  rw [numRowsL, List.length_flatten]

theorem map_getD_range {α : Type} : ∀ (c : List α) (dflt : α),
    (List.range c.length).map (fun i => c.getD i dflt) = c
  | [], _ => rfl
  | a :: t, dflt => by
    rw [List.length_cons, List.range_succ_eq_map, List.map_cons, List.map_map]
    have h : ((fun i => (a :: t).getD i dflt) ∘ Nat.succ) = fun i => t.getD i dflt := by
      funext i
      simp [Function.comp]
    rw [List.getD_cons_zero, h, map_getD_range t dflt]

theorem map_getRow_allPtrsFrom : ∀ (pre recs : List Chunk),
    (allPtrsFrom pre.length recs).map (getRowInList (pre ++ recs)) = recs.flatten
  | _, [] => rfl
  | pre, chk :: rest => by
    unfold allPtrsFrom
    rw [List.map_append, List.flatten_cons]
    congr 1
    · unfold chunkPtrs
      rw [List.map_map]
      have h : (getRowInList (pre ++ chk :: rest)) ∘ (fun r => RowPtr.mk pre.length r)
          = fun r => chk.getD r [] := by
        funext r
        simp only [Function.comp, getRowInList]
        rw [List.getD_append_right pre (chk :: rest) [] pre.length le_rfl]
        simp
      rw [h, map_getD_range]
    · have h2 : pre ++ chk :: rest = (pre ++ [chk]) ++ rest := by simp
      have h3 : pre.length + 1 = (pre ++ [chk]).length := by simp
      rw [h2, h3, map_getRow_allPtrsFrom (pre ++ [chk]) rest]

/-- Reading every pointer of `allPtrs` back yields exactly the rows of the
chunk list in insertion order. -/
theorem map_getRow_allPtrs (recs : List Chunk) :
    (allPtrs recs).map (getRowInList recs) = recs.flatten := by
  have h := map_getRow_allPtrsFrom [] recs
  simpa [allPtrs] using h

/-- The pointer-level ordering used by `keyColumnsLess`-based sorting, in
non-strict form: `p` may stay before `q` when the row of `q` is not strictly
less than the row of `p`. -/
def ptrLeB (cols : List Nat) (desc : List Bool) (fs : List CompareFunc)
    (recs : List Chunk) (p q : RowPtr) : Bool :=
  !(lessRow cols desc fs (getRowInList recs q) (getRowInList recs p))

theorem ptrLeB_intCmps_iff (cols : List Nat) (desc : List Bool)
    (recs : List Chunk) (p q : RowPtr) :
    ptrLeB cols desc (intCmps cols) recs p q = true ↔
      lessRow cols desc (intCmps cols) (getRowInList recs q) (getRowInList recs p)
        = false := by
  simp [ptrLeB]

/-- The sort of the row-pointer slice (`sort.Slice(rowPtrs, keyColumnsLess)`).
Go's sort is an unstable comparison sort; the model uses a concrete correct
comparison sort for the same ordering. -/
def sortPtrs (cols : List Nat) (desc : List Bool) (fs : List CompareFunc)
    (recs : List Chunk) (ptrs : List RowPtr) : List RowPtr :=
  List.insertionSort (fun p q => ptrLeB cols desc fs recs p q = true) ptrs

/-- The chunks the fetch phase appends: every chunk delivered by the child
before the first empty one (an empty chunk signals end-of-stream). -/
def fetchedChunks (stream : List Chunk) : List Chunk :=
  stream.takeWhile (fun c => !c.isEmpty)

/-- Draining `SortExec.Next` with no memory-pressure signal: the fetch phase
appends every child chunk into one `SortedRowContainer`; if it holds any rows
it is sorted and becomes the single partition, which `Next` then streams via
`GetRowByIdx` in pointer order. -/
def sortExecDrain (cols : List Nat) (desc : List Bool) (stream : List Chunk) :
    List Row :=
  let recs := fetchedChunks stream
  if numRowsL recs = 0 then []
  else (sortPtrs cols desc (intCmps cols) recs (allPtrs recs)).map (getRowInList recs)

theorem fetchedChunks_of_ne_nil (stream : List Chunk) (hne : ∀ c ∈ stream, c ≠ []) :
    fetchedChunks stream = stream := by
  unfold fetchedChunks
  rw [List.takeWhile_eq_self_iff]
  intro c hc
  simpa [List.isEmpty_iff] using hne c hc

/-- C1: draining any finite input stream (of nonempty chunks) through
`SortExec.Next` yields a permutation of the input rows that is non-decreasing
under the composite comparator; in particular the single-int-column input
`[3,1,4,1,5,9,2,6]` with `byDesc=[false]` comes out as `[1,1,2,3,4,5,6,9]`. -/
theorem sortExec_drain_sorted_perm (cols : List Nat) (desc : List Bool)
    (stream : List Chunk) (hne : ∀ c ∈ stream, c ≠ []) :
    ((sortExecDrain cols desc stream).Perm stream.flatten
      ∧ (sortExecDrain cols desc stream).Pairwise
          (fun r s => lessRow cols desc (intCmps cols) s r = false))
    ∧ sortExecDrain [0] [false] [[[3], [1], [4], [1], [5], [9], [2], [6]]]
        = [[1], [1], [2], [3], [4], [5], [6], [9]] := by
  constructor
  · have hfetch := fetchedChunks_of_ne_nil stream hne
    unfold sortExecDrain
    rw [hfetch]
    by_cases h0 : numRowsL stream = 0
    · have hflat : stream.flatten = [] := by
        have := numRowsL_eq_length_flatten stream
        rw [h0] at this
        exact List.length_eq_zero.mp this.symm
      simp [h0, hflat]
    · rw [if_neg h0]
      constructor
      · have hperm : (sortPtrs cols desc (intCmps cols) stream (allPtrs stream)).Perm
            (allPtrs stream) :=
          List.perm_insertionSort _ _
        have := hperm.map (getRowInList stream)
        rwa [map_getRow_allPtrs stream] at this
      · have htrans : IsTrans RowPtr
            (fun p q => ptrLeB cols desc (intCmps cols) stream p q = true) := by
          constructor
          intro p q r hpq hqr
          rw [ptrLeB_intCmps_iff] at hpq hqr ⊢
          exact lessRow_intCmps_le_trans cols desc _ _ _ hpq hqr
        have htotal : IsTotal RowPtr
            (fun p q => ptrLeB cols desc (intCmps cols) stream p q = true) := by
          constructor
          intro p q
          rw [ptrLeB_intCmps_iff, ptrLeB_intCmps_iff]
          exact lessRow_intCmps_total cols desc _ _
        have hsorted := @List.sorted_insertionSort RowPtr
          (fun p q => ptrLeB cols desc (intCmps cols) stream p q = true)
          (fun _ _ => inferInstance) htotal htrans (allPtrs stream)
        exact hsorted.map _ (fun p q hpq => (ptrLeB_intCmps_iff _ _ _ _ _).mp hpq)
  · decide

/-- Witness for C1 at the S1 input stream. -/
theorem sortExec_drain_sorted_perm_witness :
    (∀ c ∈ [[[3], [1], [4], [1], [5], [9], [2], [6]]], c ≠ ([] : Chunk))
    ∧ (((sortExecDrain [0] [false] [[[3], [1], [4], [1], [5], [9], [2], [6]]]).Perm
          ([[[3], [1], [4], [1], [5], [9], [2], [6]]] : List Chunk).flatten
        ∧ (sortExecDrain [0] [false]
              [[[3], [1], [4], [1], [5], [9], [2], [6]]]).Pairwise
            (fun r s => lessRow [0] [false] (intCmps [0]) s r = false))
      ∧ sortExecDrain [0] [false] [[[3], [1], [4], [1], [5], [9], [2], [6]]]
          = [[1], [1], [2], [3], [4], [5], [6], [9]]) :=
  ⟨by decide, sortExec_drain_sorted_perm [0] [false]
    [[[3], [1], [4], [1], [5], [9], [2], [6]]] (by decide)⟩

/-- Errors surfaced by the containers: the distinguished already-sorted
append rejection (`ErrInsertToPartitionFailed`), the append-row-after-spill
rejection, and disk I/O failures during a spill (tagged by the index of the
chunk whose write failed). -/
inductive ContainerError where
  | insertToPartitionFailed
  | appendRowAfterSpill
  | spillFailed (failedChunk : Nat)
deriving DecidableEq, Repr

/-- RowContainer: chunks in memory, optionally migrated to disk, plus the
recorded spill error. `chunkSize` is the row capacity of one in-memory chunk
(`maxChunkSize`). -/
structure RowContainer where
  chunkSize : Nat
  records : List Chunk
  recordsInDisk : Option (List Chunk)
  spillError : Option ContainerError
deriving Repr

/-- NewRowContainer: empty, in memory, no error. -/
def NewRowContainer (chunkSize : Nat) : RowContainer :=
  ⟨chunkSize, [], none, none⟩

/-- Whether records have spilled out to disk (`recordsInDisk != nil`). -/
def RowContainer.alreadySpilled (c : RowContainer) : Bool :=
  c.recordsInDisk.isSome

/-- Number of rows in the container, routed by phase. -/
def RowContainer.NumRow (c : RowContainer) : Nat :=
  match c.recordsInDisk with
  | some d => numRowsL d
  | none => numRowsL c.records

/-- Number of rows still held in memory. -/
def RowContainer.memNumRows (c : RowContainer) : Nat :=
  numRowsL c.records

/-- SpillToDisk: no-op when already spilled; otherwise create the disk list
and stream every in-memory chunk into it, then clear the memory list. The
`io` parameter injects the behaviour of the external disk writes: `some k`
makes the write of chunk `k` fail, in which case the error is recorded in
`spillError` and the method returns at once (memory is not cleared). -/
def RowContainer.SpillToDisk (io : Option Nat) (c : RowContainer) : RowContainer :=
  if c.alreadySpilled then c
  else
    match io with
    | some k =>
      if k < c.records.length then
        { c with recordsInDisk := some (c.records.take k),
                 spillError := some (.spillFailed k) }
      else { c with recordsInDisk := some c.records, records := [] }
    | none => { c with recordsInDisk := some c.records, records := [] }

/-- Add a chunk: when spilled, a stored spill error is surfaced instead;
otherwise the chunk goes to the disk list (spilled) or the memory list. -/
def RowContainer.Add (c : RowContainer) (chk : Chunk) :
    RowContainer × Option ContainerError :=
  if c.alreadySpilled then
    match c.spillError with
    | some e => (c, some e)
    | none =>
      ({ c with recordsInDisk := some (c.recordsInDisk.getD [] ++ [chk]) }, none)
  else ({ c with records := c.records ++ [chk] }, none)

/-- GetRow: routed by phase; when spilled, a stored spill error is surfaced. -/
def RowContainer.GetRow (c : RowContainer) (p : RowPtr) :
    Except ContainerError Row :=
  match c.recordsInDisk with
  | some d =>
    match c.spillError with
    | some e => .error e
    | none => .ok (getRowInList d p)
  | none => .ok (getRowInList c.records p)

/-- Append one row to an in-memory chunk list (`List.AppendRow`): the row is
copied into the last chunk, or into a fresh chunk when there is none or the
last one is full; the returned pointer locates the copy. (Phrased as a walk
to the last chunk so the recursion is structural.) -/
def appendRowL (chunkSize : Nat) : List Chunk → Row → List Chunk × RowPtr
  | [], r => ([[r]], ⟨0, 0⟩)
  | [last], r =>
    if chunkSize ≤ last.length then ([last, [r]], ⟨1, 0⟩)
    else ([last ++ [r]], ⟨0, last.length⟩)
  | chk :: rest, r =>
    ((appendRowL chunkSize rest r).1.cons chk,
      ⟨(appendRowL chunkSize rest r).2.chkIdx + 1, (appendRowL chunkSize rest r).2.rowIdx⟩)

/-- AppendRow on a RowContainer: rejected once spilled. -/
def RowContainer.AppendRow (c : RowContainer) (r : Row) :
    (RowContainer × RowPtr) × Option ContainerError :=
  if c.alreadySpilled then ((c, ⟨0, 0⟩), some .appendRowAfterSpill)
  else
    let res := appendRowL c.chunkSize c.records r
    (({ c with records := res.1 }, res.2), none)

/-- C4: a successful spill of a Memory-phase container empties the in-memory
list, preserves the total row count, and leaves every previously issued row
pointer resolving to the same logical row. -/
theorem spillToDisk_preserves_rows (c : RowContainer)
    (hmem : c.recordsInDisk = none) (herr : c.spillError = none)
    (hrows : 0 < c.NumRow) :
    (c.SpillToDisk none).memNumRows = 0
    ∧ (c.SpillToDisk none).NumRow = c.NumRow
    ∧ ∀ p : RowPtr, (c.SpillToDisk none).GetRow p = c.GetRow p := by
  have hspill : c.SpillToDisk none
      = { c with recordsInDisk := some c.records, records := [] } := by
    unfold RowContainer.SpillToDisk RowContainer.alreadySpilled
    rw [hmem]
    rfl
  refine ⟨?_, ?_, ?_⟩
  · rw [hspill]; rfl
  · rw [hspill]
    unfold RowContainer.NumRow
    rw [hmem]
  · intro p
    rw [hspill]
    unfold RowContainer.GetRow
    rw [hmem, herr]

/-- Witness for C4 at a concrete one-chunk container. -/
theorem spillToDisk_preserves_rows_witness :
    (RowContainer.recordsInDisk ⟨4, [[[7], [8]]], none, none⟩ = none)
    ∧ (RowContainer.spillError ⟨4, [[[7], [8]]], none, none⟩ = none)
    ∧ 0 < RowContainer.NumRow ⟨4, [[[7], [8]]], none, none⟩
    ∧ ((RowContainer.SpillToDisk none ⟨4, [[[7], [8]]], none, none⟩).memNumRows = 0
      ∧ (RowContainer.SpillToDisk none ⟨4, [[[7], [8]]], none, none⟩).NumRow
          = RowContainer.NumRow ⟨4, [[[7], [8]]], none, none⟩
      ∧ ∀ p : RowPtr,
          (RowContainer.SpillToDisk none ⟨4, [[[7], [8]]], none, none⟩).GetRow p
            = RowContainer.GetRow ⟨4, [[[7], [8]]], none, none⟩ p) :=
  ⟨rfl, rfl, by decide,
    spillToDisk_preserves_rows ⟨4, [[[7], [8]]], none, none⟩ rfl rfl (by decide)⟩

/-- C8: a disk I/O error during SpillToDisk is recorded in `spillError`, and
every subsequent Add and GetRow on the container surfaces the stored error. -/
theorem spill_error_sticky (c : RowContainer) (hmem : c.recordsInDisk = none)
    (k : Nat) (hk : k < c.records.length) :
    (c.SpillToDisk (some k)).spillError = some (.spillFailed k)
    ∧ (∀ chk, (c.SpillToDisk (some k)).Add chk
        = (c.SpillToDisk (some k), some (.spillFailed k)))
    ∧ ∀ p : RowPtr, (c.SpillToDisk (some k)).GetRow p = .error (.spillFailed k) := by
  have hspill : c.SpillToDisk (some k)
      = { c with recordsInDisk := some (c.records.take k),
                 spillError := some (.spillFailed k) } := by
    unfold RowContainer.SpillToDisk RowContainer.alreadySpilled
    rw [hmem]
    simp [hk]
  refine ⟨by rw [hspill], ?_, ?_⟩
  · intro chk
    rw [hspill]
    rfl
  · intro p
    rw [hspill]
    rfl

/-- Witness for C8 at a concrete one-chunk container failing on chunk 0. -/
theorem spill_error_sticky_witness :
    (RowContainer.recordsInDisk ⟨4, [[[7]]], none, none⟩ = none)
    ∧ 0 < (RowContainer.records ⟨4, [[[7]]], none, none⟩).length
    ∧ ((RowContainer.SpillToDisk (some 0) ⟨4, [[[7]]], none, none⟩).spillError
        = some (.spillFailed 0)
      ∧ (∀ chk, (RowContainer.SpillToDisk (some 0) ⟨4, [[[7]]], none, none⟩).Add chk
          = (RowContainer.SpillToDisk (some 0) ⟨4, [[[7]]], none, none⟩,
              some (.spillFailed 0)))
      ∧ ∀ p : RowPtr,
          (RowContainer.SpillToDisk (some 0) ⟨4, [[[7]]], none, none⟩).GetRow p
            = .error (.spillFailed 0)) :=
  ⟨rfl, by decide, spill_error_sticky ⟨4, [[[7]]], none, none⟩ rfl 0 (by decide)⟩

/-- SortedRowContainer: a RowContainer plus the sortable row-pointer index
and the composite-key comparator configuration. `rowPtrs = none` is the
unfrozen (Open) state. -/
structure SortedRowContainer where
  rc : RowContainer
  rowPtrs : Option (List RowPtr)
  byItemsDesc : List Bool
  keyColumns : List Nat
  keyCmpFuncs : List CompareFunc

/-- NewSortedRowContainer: a fresh in-memory container, unfrozen. -/
def NewSortedRowContainer (chunkSize : Nat) (desc : List Bool)
    (cols : List Nat) (fs : List CompareFunc) : SortedRowContainer :=
  ⟨NewRowContainer chunkSize, none, desc, cols, fs⟩

/-- The chunk list the pointer scan reads: the disk list once spilled,
the memory list otherwise (`GetChunk` routed by phase). -/
def SortedRowContainer.currentChunks (c : SortedRowContainer) : List Chunk :=
  match c.rc.recordsInDisk with
  | some d => d
  | none => c.rc.records

/-- InitPointersAndSort: idempotent; builds the row pointers by scanning all
chunks in insertion order, then sorts them under the composite comparator. -/
def SortedRowContainer.InitPointersAndSort (c : SortedRowContainer) :
    SortedRowContainer :=
  if c.rowPtrs.isSome then c
  else
    { c with rowPtrs := some (sortPtrs c.keyColumns c.byItemsDesc c.keyCmpFuncs
        c.currentChunks (allPtrs c.currentChunks)) }

/-- InitPointers (TopN): builds the row pointers in insertion order without
sorting them. -/
def SortedRowContainer.InitPointers (c : SortedRowContainer) :
    SortedRowContainer :=
  { c with rowPtrs := some (allPtrs c.currentChunks) }

/-- Add on a SortedRowContainer: rejected with the distinguished error once
the container is frozen (`rowPtrs != nil`). -/
def SortedRowContainer.Add (c : SortedRowContainer) (chk : Chunk) :
    SortedRowContainer × Option ContainerError :=
  if c.rowPtrs.isSome then (c, some .insertToPartitionFailed)
  else
    let res := c.rc.Add chk
    ({ c with rc := res.1 }, res.2)

/-- Row count of a SortedRowContainer. -/
def SortedRowContainer.NumRow (c : SortedRowContainer) : Nat :=
  c.rc.NumRow

/-- sortAndSpillToDisk: freeze-and-sort, then spill. -/
def SortedRowContainer.sortAndSpillToDisk (io : Option Nat)
    (c : SortedRowContainer) : SortedRowContainer :=
  let c1 := c.InitPointersAndSort
  { c1 with rc := c1.rc.SpillToDisk io }

theorem initPointersAndSort_rowPtrs_isSome (c : SortedRowContainer) :
    (c.InitPointersAndSort).rowPtrs.isSome = true := by
  unfold SortedRowContainer.InitPointersAndSort
  by_cases h : c.rowPtrs.isSome
  · rw [if_pos h]; exact h
  · rw [if_neg h]; rfl

theorem initPointersAndSort_of_isSome (c : SortedRowContainer)
    (h : c.rowPtrs.isSome = true) : c.InitPointersAndSort = c := by
  unfold SortedRowContainer.InitPointersAndSort
  rw [if_pos h]

theorem initPointersAndSort_numRow (c : SortedRowContainer) :
    (c.InitPointersAndSort).NumRow = c.NumRow := by
  unfold SortedRowContainer.InitPointersAndSort
  by_cases h : c.rowPtrs.isSome
  · rw [if_pos h]
  · rw [if_neg h]; rfl

/-- C3: after InitPointersAndSort, every subsequent Add is rejected with
`ErrInsertToPartitionFailed`, leaves the container unchanged, and in
particular leaves the row count unchanged. -/
theorem add_after_initPointersAndSort_rejected (c : SortedRowContainer)
    (chk : Chunk) :
    c.InitPointersAndSort.Add chk
      = (c.InitPointersAndSort, some .insertToPartitionFailed)
    ∧ (c.InitPointersAndSort.Add chk).1.NumRow = c.NumRow := by
  have hadd : c.InitPointersAndSort.Add chk
      = (c.InitPointersAndSort, some .insertToPartitionFailed) := by
    unfold SortedRowContainer.Add
    rw [if_pos (initPointersAndSort_rowPtrs_isSome c)]
  exact ⟨hadd, by rw [hadd]; exact initPointersAndSort_numRow c⟩

/-- C9: InitPointersAndSort is idempotent, and on an unfrozen container with
the integer-column comparators it installs a pointer list that is a
permutation of all row pointers in insertion order, sorted under the
composite key comparator. -/
theorem initPointersAndSort_idempotent_sorted (c : SortedRowContainer) :
    c.InitPointersAndSort.InitPointersAndSort = c.InitPointersAndSort
    ∧ (c.rowPtrs = none → c.keyCmpFuncs = intCmps c.keyColumns →
        ∃ l, c.InitPointersAndSort.rowPtrs = some l
          ∧ l.Perm (allPtrs c.currentChunks)
          ∧ l.Pairwise (fun p q =>
              lessRow c.keyColumns c.byItemsDesc (intCmps c.keyColumns)
                (getRowInList c.currentChunks q)
                (getRowInList c.currentChunks p) = false)) := by
  constructor
  · exact initPointersAndSort_of_isSome _ (initPointersAndSort_rowPtrs_isSome c)
  · intro hnone hfs
    refine ⟨sortPtrs c.keyColumns c.byItemsDesc c.keyCmpFuncs
      c.currentChunks (allPtrs c.currentChunks), ?_, ?_, ?_⟩
    · unfold SortedRowContainer.InitPointersAndSort
      rw [hnone]
      rfl
    · exact List.perm_insertionSort _ _
    · rw [hfs]
      have htrans : IsTrans RowPtr
          (fun p q => ptrLeB c.keyColumns c.byItemsDesc (intCmps c.keyColumns)
            c.currentChunks p q = true) := by
        constructor
        intro p q r hpq hqr
        rw [ptrLeB_intCmps_iff] at hpq hqr ⊢
        exact lessRow_intCmps_le_trans _ _ _ _ _ hpq hqr
      have htotal : IsTotal RowPtr
          (fun p q => ptrLeB c.keyColumns c.byItemsDesc (intCmps c.keyColumns)
            c.currentChunks p q = true) := by
        constructor
        intro p q
        rw [ptrLeB_intCmps_iff, ptrLeB_intCmps_iff]
        exact lessRow_intCmps_total _ _ _ _
      have hsorted := @List.sorted_insertionSort RowPtr
        (fun p q => ptrLeB c.keyColumns c.byItemsDesc (intCmps c.keyColumns)
          c.currentChunks p q = true)
        (fun _ _ => inferInstance) htotal htrans (allPtrs c.currentChunks)
      exact hsorted.imp (fun hpq => (ptrLeB_intCmps_iff _ _ _ _ _).mp hpq)

/-- Witness for C9 at a concrete unfrozen two-chunk container. -/
theorem initPointersAndSort_idempotent_sorted_witness :
    (SortedRowContainer.InitPointersAndSort
        (SortedRowContainer.InitPointersAndSort
          ⟨⟨4, [[[2]], [[1]]], none, none⟩, none, [false], [0], intCmps [0]⟩)
      = SortedRowContainer.InitPointersAndSort
          ⟨⟨4, [[[2]], [[1]]], none, none⟩, none, [false], [0], intCmps [0]⟩)
    ∧ ∃ l, (SortedRowContainer.InitPointersAndSort
          ⟨⟨4, [[[2]], [[1]]], none, none⟩, none, [false], [0], intCmps [0]⟩).rowPtrs
        = some l
      ∧ l.Perm (allPtrs (SortedRowContainer.currentChunks
          ⟨⟨4, [[[2]], [[1]]], none, none⟩, none, [false], [0], intCmps [0]⟩))
      ∧ l.Pairwise (fun p q => lessRow [0] [false] (intCmps [0])
          (getRowInList (SortedRowContainer.currentChunks
            ⟨⟨4, [[[2]], [[1]]], none, none⟩, none, [false], [0], intCmps [0]⟩) q)
          (getRowInList (SortedRowContainer.currentChunks
            ⟨⟨4, [[[2]], [[1]]], none, none⟩, none, [false], [0], intCmps [0]⟩) p)
            = false) :=
  ⟨(initPointersAndSort_idempotent_sorted
      ⟨⟨4, [[[2]], [[1]]], none, none⟩, none, [false], [0], intCmps [0]⟩).1,
    (initPointersAndSort_idempotent_sorted
      ⟨⟨4, [[[2]], [[1]]], none, none⟩, none, [false], [0], intCmps [0]⟩).2 rfl rfl⟩

theorem rowContainerAdd_of_err (c : RowContainer) (chk : Chunk)
    (e : ContainerError) (h : (c.Add chk).2 = some e) : c.Add chk = (c, some e) := by
  by_cases hs : c.alreadySpilled
  · cases hsp : c.spillError with
    | some e2 =>
      have hadd : c.Add chk = (c, some e2) := by
        unfold RowContainer.Add
        rw [if_pos hs, hsp]
      rw [hadd] at h
      have h2 : some e2 = some e := h
      obtain rfl : e2 = e := by injection h2
      exact hadd
    | none =>
      have hadd : (c.Add chk).2 = none := by
        unfold RowContainer.Add
        rw [if_pos hs, hsp]
      rw [h] at hadd
      exact absurd hadd (by simp)
  · have hadd : (c.Add chk).2 = none := by
      unfold RowContainer.Add
      rw [if_neg hs]
    rw [h] at hadd
    exact absurd hadd (by simp)

theorem sortedAdd_of_err (c : SortedRowContainer) (chk : Chunk)
    (e : ContainerError) (h : (c.Add chk).2 = some e) : c.Add chk = (c, some e) := by
  unfold SortedRowContainer.Add at h ⊢
  by_cases hf : c.rowPtrs.isSome
  · rw [if_pos hf] at h ⊢
    simp only at h
    rw [h]
  · rw [if_neg hf] at h ⊢
    simp only at h ⊢
    rw [rowContainerAdd_of_err c.rc chk e h]

/-- The sort executor's fetch-phase state: the current container together
with an allocation id, the accumulated partition list, the id of the
container the spill action currently points at, and the id supply.
Ids stand in for Go pointer identity of the shared containers. -/
structure FetchState where
  rowChunks : SortedRowContainer
  rowChunksId : Nat
  actionId : Nat
  partitionList : List (SortedRowContainer × Nat)
  nextId : Nat

/-- One append of the fetch phase (`SortExec.fetchRowChunks` loop body for a
nonempty chunk): try `Add`; on the distinguished already-sorted error, append
the current container to the partition list, allocate a fresh container with
the same configuration, re-point the spill action at it
(`spillAction.ResetRowContainer`), and retry the append once, surfacing the
retried result. -/
def fetchAddChunk (st : FetchState) (chk : Chunk) :
    FetchState × Option ContainerError :=
  match st.rowChunks.Add chk with
  | (c1, none) => ({ st with rowChunks := c1 }, none)
  | (_, some e) =>
    if e = .insertToPartitionFailed then
      let fresh := NewSortedRowContainer st.rowChunks.rc.chunkSize
        st.rowChunks.byItemsDesc st.rowChunks.keyColumns st.rowChunks.keyCmpFuncs
      let st1 : FetchState :=
        { rowChunks := fresh
          rowChunksId := st.nextId
          actionId := st.nextId
          partitionList := st.partitionList ++ [(st.rowChunks, st.rowChunksId)]
          nextId := st.nextId + 1 }
      match st1.rowChunks.Add chk with
      | (c2, r) => ({ st1 with rowChunks := c2 }, r)
    else (st, some e)

/-- C5: whenever the fetch-phase append hits the already-sorted error, the
executor appends the current container to the partition list, allocates a new
container with the same chunk size and comparator configuration, points the
spill action at the new container, retries the append once, and surfaces the
retried result (which succeeds, leaving the chunk in the fresh container). -/
theorem fetch_rollover (st : FetchState) (chk : Chunk)
    (h : (st.rowChunks.Add chk).2 = some .insertToPartitionFailed) :
    fetchAddChunk st chk =
      ({ rowChunks := ⟨⟨st.rowChunks.rc.chunkSize, [chk], none, none⟩, none,
            st.rowChunks.byItemsDesc, st.rowChunks.keyColumns,
            st.rowChunks.keyCmpFuncs⟩
         rowChunksId := st.nextId
         actionId := st.nextId
         partitionList := st.partitionList ++ [(st.rowChunks, st.rowChunksId)]
         nextId := st.nextId + 1 }, none) := by
  have hpair := sortedAdd_of_err st.rowChunks chk _ h
  unfold fetchAddChunk
  rw [hpair]
  rfl

/-- Witness for C5 at a concrete frozen container. -/
theorem fetch_rollover_witness :
    ((SortedRowContainer.Add
        ⟨⟨4, [[[1]]], none, none⟩, some [⟨0, 0⟩], [false], [0], intCmps [0]⟩
        [[2]]).2 = some .insertToPartitionFailed)
    ∧ fetchAddChunk
        ⟨⟨⟨4, [[[1]]], none, none⟩, some [⟨0, 0⟩], [false], [0], intCmps [0]⟩,
          0, 0, [], 1⟩ [[2]] =
      ({ rowChunks := ⟨⟨4, [[[2]]], none, none⟩, none, [false], [0], intCmps [0]⟩
         rowChunksId := 1
         actionId := 1
         partitionList :=
           [(⟨⟨4, [[[1]]], none, none⟩, some [⟨0, 0⟩], [false], [0], intCmps [0]⟩, 0)]
         nextId := 2 }, none) :=
  ⟨rfl, fetch_rollover
    ⟨⟨⟨4, [[[1]]], none, none⟩, some [⟨0, 0⟩], [false], [0], intCmps [0]⟩,
      0, 0, [], 1⟩ [[2]] rfl⟩

/-- Outcome of one invocation of a spill action: delegate to the fallback
action, do nothing (no fallback set), or start the spill as a separate
asynchronous task (the `go` statement in the source). -/
inductive ActionOutcome where
  | delegated
  | ignored
  | spillLaunched
deriving DecidableEq, Repr

/-- Decision logic of `SpillDiskAction.Action` over the state it can observe:
whether the container has already spilled, its current memory charge, and
whether a fallback is set. The source consults only the spilled flag. -/
def spillDiskActionOutcome (spilled : Bool) (bytesConsumed : Int)
    (hasFallback : Bool) : ActionOutcome :=
  if spilled then (if hasFallback then .delegated else .ignored)
  else .spillLaunched

/-- Decision logic of `SortAndSpillDiskAction.Action`: delegates when the
container has already spilled or its memory charge is zero, otherwise starts
the asynchronous sort-and-spill task. -/
def sortAndSpillDiskActionOutcome (spilled : Bool) (bytesConsumed : Int)
    (hasFallback : Bool) : ActionOutcome :=
  if spilled || bytesConsumed == 0 then (if hasFallback then .delegated else .ignored)
  else .spillLaunched

/-- C7 counterexample: for the plain `SpillDiskAction`, an unspilled container
with zero memory charge and a fallback set still gets a spill launched — the
claimed delegation on zero charge does not happen for this action. -/
theorem spillDiskAction_zero_charge_spills :
    spillDiskActionOutcome false 0 true = .spillLaunched
    ∧ spillDiskActionOutcome false 0 true ≠ .delegated := by
  constructor
  · rfl
  · intro h
    exact absurd h (by decide)

/-- C7 amended: `SortAndSpillDiskAction.Action` delegates to the fallback
(when set) iff the container is already spilled or its memory charge is zero,
and otherwise launches the spill as a separate asynchronous task; the plain
`SpillDiskAction.Action` delegates iff the container is already spilled, and
otherwise launches the async spill regardless of the memory charge. -/
theorem spill_action_outcomes (spilled : Bool) (bytes : Int) (fb : Bool) :
    ((spilled = true ∨ bytes = 0) →
      sortAndSpillDiskActionOutcome spilled bytes fb
        = (if fb then .delegated else .ignored))
    ∧ (spilled = false → bytes ≠ 0 →
        sortAndSpillDiskActionOutcome spilled bytes fb = .spillLaunched)
    ∧ (spilled = true →
        spillDiskActionOutcome spilled bytes fb
          = (if fb then .delegated else .ignored))
    ∧ (spilled = false →
        spillDiskActionOutcome spilled bytes fb = .spillLaunched) := by
  refine ⟨?_, ?_, ?_, ?_⟩
  · intro h
    unfold sortAndSpillDiskActionOutcome
    rcases h with h | h
    · rw [h]
      rfl
    · rw [h]
      simp
  · intro h1 h2
    unfold sortAndSpillDiskActionOutcome
    rw [h1]
    simp [h2]
  · intro h
    unfold spillDiskActionOutcome
    rw [h]
    rfl
  · intro h
    unfold spillDiskActionOutcome
    rw [h]
    rfl

/-- Witness for C7 amended at concrete action states. -/
theorem spill_action_outcomes_witness :
    sortAndSpillDiskActionOutcome false 0 true = .delegated
    ∧ sortAndSpillDiskActionOutcome false 5 true = .spillLaunched
    ∧ spillDiskActionOutcome true 5 true = .delegated
    ∧ spillDiskActionOutcome false 5 true = .spillLaunched :=
  ⟨(spill_action_outcomes false 0 true).1 (Or.inr rfl),
    (spill_action_outcomes false 5 true).2.1 rfl (by decide),
    (spill_action_outcomes true 5 true).2.2.1 rfl,
    (spill_action_outcomes false 5 true).2.2.2 rfl⟩

/-- The compaction trigger factor (`topNCompactionFactor`). -/
def topNCompactionFactor : Nat := 4

/-- Heap comparison `topNChunkHeap.Less i j`: true when the row at pointer
slot `i` sorts strictly later than the row at slot `j` under the requested
order — the pointer slice is a max-heap for that order. -/
def hLess (cols : List Nat) (desc : List Bool) (fs : List CompareFunc)
    (recs : List Chunk) (ptrs : List RowPtr) (i j : Nat) : Bool :=
  greaterRow cols desc fs
    (getRowInList recs (ptrs.getD i ⟨0, 0⟩))
    (getRowInList recs (ptrs.getD j ⟨0, 0⟩))

/-- Swap of two pointer slots (`topNChunkHeap.Swap`). -/
def swapL (ptrs : List RowPtr) (i j : Nat) : List RowPtr :=
  (ptrs.set i (ptrs.getD j ⟨0, 0⟩)).set j (ptrs.getD i ⟨0, 0⟩)

/-- Child chosen by `container/heap`'s `down`: the right child when it exists
and compares `Less` than the left child, else the left child. -/
def downChild (cols : List Nat) (desc : List Bool) (fs : List CompareFunc)
    (recs : List Chunk) (ptrs : List RowPtr) (i n : Nat) : Nat :=
  if 2 * i + 2 < n ∧ hLess cols desc fs recs ptrs (2 * i + 2) (2 * i + 1) = true
  then 2 * i + 2 else 2 * i + 1

/-- The sift-down loop of `container/heap` (`down(i0, n)`), with fuel; the
returned index is where the sifted element came to rest. -/
def heapDown (cols : List Nat) (desc : List Bool) (fs : List CompareFunc)
    (recs : List Chunk) : Nat → List RowPtr → Nat → Nat → List RowPtr × Nat
  | 0, ptrs, i, _ => (ptrs, i)
  | fuel + 1, ptrs, i, n =>
    if n ≤ 2 * i + 1 then (ptrs, i)
    else if hLess cols desc fs recs ptrs (downChild cols desc fs recs ptrs i n) i
        = true then
      heapDown cols desc fs recs fuel
        (swapL ptrs i (downChild cols desc fs recs ptrs i n))
        (downChild cols desc fs recs ptrs i n) n
    else (ptrs, i)

/-- The sift-up loop of `container/heap` (`up(j)`), with fuel. -/
def heapUp (cols : List Nat) (desc : List Bool) (fs : List CompareFunc)
    (recs : List Chunk) : Nat → List RowPtr → Nat → List RowPtr
  | 0, ptrs, _ => ptrs
  | fuel + 1, ptrs, j =>
    if (j - 1) / 2 = j ∨ hLess cols desc fs recs ptrs j ((j - 1) / 2) = false then ptrs
    else heapUp cols desc fs recs fuel (swapL ptrs ((j - 1) / 2) j) ((j - 1) / 2)

/-- The descending loop of `heap.Init`: sift down positions n/2-1 … 0. -/
def heapInitAux (cols : List Nat) (desc : List Bool) (fs : List CompareFunc)
    (recs : List Chunk) (n : Nat) : Nat → List RowPtr → List RowPtr
  | 0, ptrs => ptrs
  | k + 1, ptrs =>
    heapInitAux cols desc fs recs n k (heapDown cols desc fs recs n ptrs k n).1

/-- `heap.Init` over the pointer slice. -/
def heapInit (cols : List Nat) (desc : List Bool) (fs : List CompareFunc)
    (recs : List Chunk) (ptrs : List RowPtr) : List RowPtr :=
  heapInitAux cols desc fs recs ptrs.length (ptrs.length / 2) ptrs

/-- `heap.Pop`: swap the root with the last slot, sift down over the shortened
prefix, then drop the last slot (`topNChunkHeap.Pop` truncates the slice). -/
def heapPop (cols : List Nat) (desc : List Bool) (fs : List CompareFunc)
    (recs : List Chunk) (ptrs : List RowPtr) : List RowPtr :=
  (heapDown cols desc fs recs ptrs.length (swapL ptrs 0 (ptrs.length - 1)) 0
    (ptrs.length - 1)).1.dropLast

/-- `heap.Fix(i)`: sift down, and when the element did not move, sift up. -/
def heapFix (cols : List Nat) (desc : List Bool) (fs : List CompareFunc)
    (recs : List Chunk) (ptrs : List RowPtr) (i : Nat) : List RowPtr :=
  if i < (heapDown cols desc fs recs ptrs.length ptrs i ptrs.length).2 then
    (heapDown cols desc fs recs ptrs.length ptrs i ptrs.length).1
  else
    heapUp cols desc fs recs ptrs.length
      (heapDown cols desc fs recs ptrs.length ptrs i ptrs.length).1 i

/-- The pop loop of `executeTopN`: pop the heap root while more than `limit`
pointers remain. -/
def popLoop (cols : List Nat) (desc : List Bool) (fs : List CompareFunc)
    (recs : List Chunk) (limit : Nat) : Nat → List RowPtr → List RowPtr
  | 0, ptrs => ptrs
  | fuel + 1, ptrs =>
    if limit < ptrs.length then
      popLoop cols desc fs recs limit fuel (heapPop cols desc fs recs ptrs)
    else ptrs

/-- The TopN executor's container state during the streaming-replace phase:
the container's in-memory chunks and the heap of row pointers. -/
structure TopNState where
  records : List Chunk
  ptrs : List RowPtr
deriving Repr

/-- One row of `processChildChk`: when the heap-max row sorts strictly later
than the incoming row, append a copy of the incoming row to the container,
install its pointer at the root and fix the heap; otherwise skip the row. -/
def processRow (cols : List Nat) (desc : List Bool) (fs : List CompareFunc)
    (chunkSize : Nat) (st : TopNState) (r : Row) : TopNState :=
  if greaterRow cols desc fs (getRowInList st.records (st.ptrs.getD 0 ⟨0, 0⟩)) r then
    ⟨(appendRowL chunkSize st.records r).1,
      heapFix cols desc fs (appendRowL chunkSize st.records r).1
        (st.ptrs.set 0 (appendRowL chunkSize st.records r).2) 0⟩
  else st

/-- `TopNExec.processChildChk`: process every row of a child chunk. -/
def processChildChk (cols : List Nat) (desc : List Bool) (fs : List CompareFunc)
    (chunkSize : Nat) (st : TopNState) (chk : Chunk) : TopNState :=
  chk.foldl (processRow cols desc fs chunkSize) st

/-- One step of `doCompaction`'s copy loop: append the live row behind one
pointer to the new container and record the new pointer. -/
def compactStep (chunkSize : Nat) (src : List Chunk)
    (acc : List Chunk × List RowPtr) (ptr : RowPtr) : List Chunk × List RowPtr :=
  ((appendRowL chunkSize acc.1 (getRowInList src ptr)).1,
    acc.2 ++ [(appendRowL chunkSize acc.1 (getRowInList src ptr)).2])

/-- `TopNExec.doCompaction`: copy the live rows (those referenced by the
pointer slice, in slice order) into a fresh container and rebuild the
pointers. -/
def doCompaction (chunkSize : Nat) (st : TopNState) : TopNState :=
  ⟨(st.ptrs.foldl (compactStep chunkSize st.records) ([], [])).1,
    (st.ptrs.foldl (compactStep chunkSize st.records) ([], [])).2⟩

/-- One iteration of the `executeTopN` streaming loop: process a child batch,
then compact when the container's rows exceed `topNCompactionFactor` times the
live pointer count. -/
def topNStep (cols : List Nat) (desc : List Bool) (fs : List CompareFunc)
    (chunkSize : Nat) (st : TopNState) (chk : Chunk) : TopNState :=
  if (processChildChk cols desc fs chunkSize st chk).ptrs.length * topNCompactionFactor
      < numRowsL (processChildChk cols desc fs chunkSize st chk).records then
    doCompaction chunkSize (processChildChk cols desc fs chunkSize st chk)
  else processChildChk cols desc fs chunkSize st chk

/-- The prefetch loop of `loadChunksUntilTotalLimit`: pull chunks while the
container holds fewer than `limit` rows; return the loaded chunks and the
unconsumed remainder of the stream. -/
def loadChunks (limit : Nat) : List Chunk → List Chunk → List Chunk × List Chunk
  | acc, [] => (acc, [])
  | acc, chk :: rest =>
    if limit ≤ numRowsL acc then (acc, chk :: rest)
    else loadChunks limit (acc ++ [chk]) rest

/-- Phases 1-4 of `TopNExec`: prefetch, heapify and pop down to the limit,
then stream the remaining child chunks with replacement and compaction. -/
def topNPtrsPhase (cols : List Nat) (desc : List Bool) (fs : List CompareFunc)
    (chunkSize limit : Nat) (child : List Chunk) : TopNState :=
  let res := loadChunks limit [] (fetchedChunks child)
  let ptrs1 := heapInit cols desc fs res.1 (allPtrs res.1)
  let st0 : TopNState := ⟨res.1, popLoop cols desc fs res.1 limit ptrs1.length ptrs1⟩
  res.2.foldl (topNStep cols desc fs chunkSize) st0

/-- The executor state when `executeTopN` returns: the streaming phases
followed by the final sort of the pointer slice under the requested order. -/
def topNFinal (cols : List Nat) (desc : List Bool) (chunkSize offset count : Nat)
    (child : List Chunk) : TopNState :=
  ⟨(topNPtrsPhase cols desc (intCmps cols) chunkSize (offset + count) child).records,
    sortPtrs cols desc (intCmps cols)
      (topNPtrsPhase cols desc (intCmps cols) chunkSize (offset + count) child).records
      (topNPtrsPhase cols desc (intCmps cols) chunkSize (offset + count) child).ptrs⟩

/-- Draining `TopNExec.Next`: the output index starts at `offset` and walks
the sorted pointer slice to its end. -/
def topNRun (cols : List Nat) (desc : List Bool) (chunkSize offset count : Nat)
    (child : List Chunk) : List Row :=
  ((topNFinal cols desc chunkSize offset count child).ptrs.drop offset).map
    (getRowInList (topNFinal cols desc chunkSize offset count child).records)

/-- C2 counterexample: the S3 scenario (input `[3,1,4,1,5,9,2,6]`,
`byDesc=[true]`, `offset=1`, `count=3`) does not produce the claimed
`[5,4,3]`. -/
theorem topN_s3_claimed_output_false :
    topNRun [0] [true] 32 1 3 [[[3], [1], [4], [1]], [[5], [9], [2], [6]]]
      ≠ [[5], [4], [3]] := by decide

/-- C2 amended: the S3 scenario produces `[6,5,4]` — the three rows of the
descending order `[9,6,5,4,...]` starting at rank 1 — for both chunkings of
the input. -/
theorem topN_s3_output :
    topNRun [0] [true] 32 1 3 [[[3], [1], [4], [1]], [[5], [9], [2], [6]]]
      = [[6], [5], [4]]
    ∧ topNRun [0] [true] 32 1 3 [[[3], [1], [4], [1], [5], [9], [2], [6]]]
      = [[6], [5], [4]] :=
  ⟨by decide, by decide⟩

theorem flatten_appendRowL (chunkSize : Nat) :
    ∀ (recs : List Chunk) (r : Row),
      (appendRowL chunkSize recs r).1.flatten = recs.flatten ++ [r]
  | [], r => by simp [appendRowL]
  | [last], r => by
    unfold appendRowL
    by_cases h : chunkSize ≤ last.length
    · rw [if_pos h]
      simp
    · rw [if_neg h]
      simp
  | chk :: c2 :: rest, r => by
    unfold appendRowL
    simp only [List.flatten_cons]
    rw [flatten_appendRowL chunkSize (c2 :: rest) r]
    simp [List.flatten_cons, List.append_assoc]

theorem numRows_appendRowL (chunkSize : Nat) (recs : List Chunk) (r : Row) :
    numRowsL (appendRowL chunkSize recs r).1 = numRowsL recs + 1 := by
  rw [numRowsL_eq_length_flatten, numRowsL_eq_length_flatten, flatten_appendRowL]
  simp

theorem length_swapL (ptrs : List RowPtr) (i j : Nat) :
    (swapL ptrs i j).length = ptrs.length := by
  simp [swapL]

theorem length_heapDown (cols : List Nat) (desc : List Bool) (fs : List CompareFunc)
    (recs : List Chunk) :
    ∀ (fuel : Nat) (ptrs : List RowPtr) (i n : Nat),
      ((heapDown cols desc fs recs fuel ptrs i n).1).length = ptrs.length
  | 0, _, _, _ => rfl
  | fuel + 1, ptrs, i, n => by
    unfold heapDown
    by_cases h1 : n ≤ 2 * i + 1
    · rw [if_pos h1]
    · rw [if_neg h1]
      by_cases h2 : hLess cols desc fs recs ptrs (downChild cols desc fs recs ptrs i n) i
          = true
      · rw [if_pos h2]
        rw [length_heapDown cols desc fs recs fuel _ _ n, length_swapL]
      · rw [if_neg h2]

theorem length_heapUp (cols : List Nat) (desc : List Bool) (fs : List CompareFunc)
    (recs : List Chunk) :
    ∀ (fuel : Nat) (ptrs : List RowPtr) (j : Nat),
      (heapUp cols desc fs recs fuel ptrs j).length = ptrs.length
  | 0, _, _ => rfl
  | fuel + 1, ptrs, j => by
    unfold heapUp
    by_cases h : (j - 1) / 2 = j ∨ hLess cols desc fs recs ptrs j ((j - 1) / 2) = false
    · rw [if_pos h]
    · rw [if_neg h, length_heapUp cols desc fs recs fuel _ _, length_swapL]

theorem length_heapFix (cols : List Nat) (desc : List Bool) (fs : List CompareFunc)
    (recs : List Chunk) (ptrs : List RowPtr) (i : Nat) :
    (heapFix cols desc fs recs ptrs i).length = ptrs.length := by
  unfold heapFix
  by_cases h : i < (heapDown cols desc fs recs ptrs.length ptrs i ptrs.length).2
  · rw [if_pos h, length_heapDown]
  · rw [if_neg h, length_heapUp, length_heapDown]

theorem length_processRow (cols : List Nat) (desc : List Bool) (fs : List CompareFunc)
    (chunkSize : Nat) (st : TopNState) (r : Row) :
    (processRow cols desc fs chunkSize st r).ptrs.length = st.ptrs.length := by
  unfold processRow
  by_cases h : greaterRow cols desc fs
      (getRowInList st.records (st.ptrs.getD 0 ⟨0, 0⟩)) r = true
  · rw [if_pos h]
    show (heapFix cols desc fs (appendRowL chunkSize st.records r).1
        (st.ptrs.set 0 (appendRowL chunkSize st.records r).2) 0).length
      = st.ptrs.length
    rw [length_heapFix, List.length_set]
  · rw [if_neg h]

theorem length_processChildChk (cols : List Nat) (desc : List Bool)
    (fs : List CompareFunc) (chunkSize : Nat) :
    ∀ (chk : Chunk) (st : TopNState),
      (processChildChk cols desc fs chunkSize st chk).ptrs.length = st.ptrs.length
  | [], _ => rfl
  | r :: rest, st => by
    show (processChildChk cols desc fs chunkSize
        (processRow cols desc fs chunkSize st r) rest).ptrs.length = _
    rw [length_processChildChk cols desc fs chunkSize rest _, length_processRow]

theorem compactFold (chunkSize : Nat) (src : List Chunk) :
    ∀ (ptrs : List RowPtr) (acc : List Chunk × List RowPtr),
      (ptrs.foldl (compactStep chunkSize src) acc).1.flatten
          = acc.1.flatten ++ ptrs.map (getRowInList src)
      ∧ (ptrs.foldl (compactStep chunkSize src) acc).2.length
          = acc.2.length + ptrs.length
  | [], acc => by simp
  | ptr :: rest, acc => by
    rw [List.foldl_cons]
    have ih := compactFold chunkSize src rest (compactStep chunkSize src acc ptr)
    constructor
    · rw [ih.1]
      show (appendRowL chunkSize acc.1 (getRowInList src ptr)).1.flatten ++ _ = _
      rw [flatten_appendRowL]
      simp [List.append_assoc]
    · rw [ih.2]
      show (acc.2 ++ [(appendRowL chunkSize acc.1 (getRowInList src ptr)).2]).length + _ = _
      simp
      omega

theorem doCompaction_flatten (chunkSize : Nat) (st : TopNState) :
    (doCompaction chunkSize st).records.flatten
      = st.ptrs.map (getRowInList st.records) := by
  have h := (compactFold chunkSize st.records st.ptrs ([], [])).1
  simpa [doCompaction] using h

theorem doCompaction_numRows (chunkSize : Nat) (st : TopNState) :
    numRowsL (doCompaction chunkSize st).records = st.ptrs.length := by
  rw [numRowsL_eq_length_flatten, doCompaction_flatten, List.length_map]

theorem doCompaction_ptrsLength (chunkSize : Nat) (st : TopNState) :
    (doCompaction chunkSize st).ptrs.length = st.ptrs.length := by
  have h := (compactFold chunkSize st.records st.ptrs ([], [])).2
  simpa [doCompaction] using h

theorem length_topNStep (cols : List Nat) (desc : List Bool) (fs : List CompareFunc)
    (chunkSize : Nat) (st : TopNState) (chk : Chunk) :
    (topNStep cols desc fs chunkSize st chk).ptrs.length = st.ptrs.length := by
  unfold topNStep
  by_cases h : (processChildChk cols desc fs chunkSize st chk).ptrs.length
      * topNCompactionFactor
      < numRowsL (processChildChk cols desc fs chunkSize st chk).records
  · rw [if_pos h, doCompaction_ptrsLength, length_processChildChk]
  · rw [if_neg h, length_processChildChk]

theorem numRows_topNStep_le (cols : List Nat) (desc : List Bool)
    (fs : List CompareFunc) (chunkSize : Nat) (st : TopNState) (chk : Chunk) :
    numRowsL (topNStep cols desc fs chunkSize st chk).records
      ≤ st.ptrs.length * topNCompactionFactor := by
  unfold topNStep
  by_cases h : (processChildChk cols desc fs chunkSize st chk).ptrs.length
      * topNCompactionFactor
      < numRowsL (processChildChk cols desc fs chunkSize st chk).records
  · rw [if_pos h, doCompaction_numRows, length_processChildChk]
    rw [show topNCompactionFactor = 4 from rfl]
    omega
  · rw [if_neg h]
    push_neg at h
    rwa [length_processChildChk] at h

theorem topNSteps_bound (cols : List Nat) (desc : List Bool) (fs : List CompareFunc)
    (chunkSize N : Nat) :
    ∀ (batches : List Chunk) (st0 : TopNState),
      st0.ptrs.length ≤ N → batches ≠ [] →
      numRowsL ((batches.foldl (topNStep cols desc fs chunkSize) st0)).records
          ≤ topNCompactionFactor * N
      ∧ (batches.foldl (topNStep cols desc fs chunkSize) st0).ptrs.length
          = st0.ptrs.length
  | [], _, _, hb => absurd rfl hb
  | [chk], st0, h0, _ => by
    constructor
    · show numRowsL (topNStep cols desc fs chunkSize st0 chk).records ≤ _
      have h1 := numRows_topNStep_le cols desc fs chunkSize st0 chk
      rw [show topNCompactionFactor = 4 from rfl] at h1 ⊢
      omega
    · exact length_topNStep cols desc fs chunkSize st0 chk
  | chk :: chk2 :: rest, st0, h0, _ => by
    have hlen := length_topNStep cols desc fs chunkSize st0 chk
    have ih := topNSteps_bound cols desc fs chunkSize N (chk2 :: rest)
      (topNStep cols desc fs chunkSize st0 chk)
      (by rw [hlen]; exact h0) (by simp)
    rw [List.foldl_cons]
    exact ⟨ih.1, by rw [ih.2, hlen]⟩

/-- C6: over the streaming-replace phase, each batch step preserves the live
pointer count; whenever the processed batch leaves the container with more
than `topNCompactionFactor` times as many rows as live pointers, the step is
exactly a compaction, and a compaction copies precisely the live rows behind
`rowPtrs` into the fresh container; consequently after every batch the
container holds at most `topNCompactionFactor * N` rows when the phase starts
with at most `N` live pointers (`N = offset + count`). -/
theorem topN_compaction_invariant (cols : List Nat) (desc : List Bool)
    (fs : List CompareFunc) (chunkSize N : Nat) (st0 : TopNState)
    (batches : List Chunk) (h0 : st0.ptrs.length ≤ N) (hb : batches ≠ []) :
    numRowsL ((batches.foldl (topNStep cols desc fs chunkSize) st0)).records
        ≤ topNCompactionFactor * N
    ∧ (batches.foldl (topNStep cols desc fs chunkSize) st0).ptrs.length
        = st0.ptrs.length
    ∧ (∀ (st : TopNState) (chk : Chunk),
        (processChildChk cols desc fs chunkSize st chk).ptrs.length
            * topNCompactionFactor
          < numRowsL (processChildChk cols desc fs chunkSize st chk).records →
        topNStep cols desc fs chunkSize st chk
          = doCompaction chunkSize (processChildChk cols desc fs chunkSize st chk))
    ∧ (∀ st : TopNState,
        (doCompaction chunkSize st).records.flatten
          = st.ptrs.map (getRowInList st.records)
        ∧ numRowsL (doCompaction chunkSize st).records = st.ptrs.length) := by
  refine ⟨(topNSteps_bound cols desc fs chunkSize N batches st0 h0 hb).1,
    (topNSteps_bound cols desc fs chunkSize N batches st0 h0 hb).2, ?_, ?_⟩
  · intro st chk h
    unfold topNStep
    rw [if_pos h]
  · intro st
    exact ⟨doCompaction_flatten chunkSize st, doCompaction_numRows chunkSize st⟩

/-- Witness for C6 at a concrete one-row state and one streamed batch. -/
theorem topN_compaction_invariant_witness :
    ((⟨[[[1]]], [⟨0, 0⟩]⟩ : TopNState).ptrs.length ≤ 1)
    ∧ (numRowsL (([[[0]]] : List Chunk).foldl
          (topNStep [0] [true] (intCmps [0]) 32) ⟨[[[1]]], [⟨0, 0⟩]⟩).records
        ≤ topNCompactionFactor * 1
      ∧ (([[[0]]] : List Chunk).foldl
          (topNStep [0] [true] (intCmps [0]) 32) ⟨[[[1]]], [⟨0, 0⟩]⟩).ptrs.length
        = (⟨[[[1]]], [⟨0, 0⟩]⟩ : TopNState).ptrs.length
      ∧ (∀ (st : TopNState) (chk : Chunk),
          (processChildChk [0] [true] (intCmps [0]) 32 st chk).ptrs.length
              * topNCompactionFactor
            < numRowsL (processChildChk [0] [true] (intCmps [0]) 32 st chk).records →
          topNStep [0] [true] (intCmps [0]) 32 st chk
            = doCompaction 32 (processChildChk [0] [true] (intCmps [0]) 32 st chk))
      ∧ (∀ st : TopNState,
          (doCompaction 32 st).records.flatten
            = st.ptrs.map (getRowInList st.records)
          ∧ numRowsL (doCompaction 32 st).records = st.ptrs.length)) :=
  ⟨by decide, topN_compaction_invariant [0] [true] (intCmps [0]) 32 1
    ⟨[[[1]]], [⟨0, 0⟩]⟩ [[[0]]] (by decide) (by simp)⟩

/-- C10: whenever the retained pointer count after the Top-N phases is at
most the configured offset, draining `TopNExec.Next` produces no rows: the
output index starts at `offset`, which is already past the end of the
pointer slice. -/
theorem topN_output_empty_of_le_offset (cols : List Nat) (desc : List Bool)
    (chunkSize offset count : Nat) (child : List Chunk)
    (h : (topNFinal cols desc chunkSize offset count child).ptrs.length ≤ offset) :
    topNRun cols desc chunkSize offset count child = [] := by
  unfold topNRun
  rw [List.drop_eq_nil_of_le h]
  rfl

/-- Witness for C10: two retained rows against offset 5 produce no output. -/
theorem topN_output_empty_of_le_offset_witness :
    ((topNFinal [0] [true] 32 5 3 [[[1], [2]]]).ptrs.length ≤ 5)
    ∧ topNRun [0] [true] 32 5 3 [[[1], [2]]] = [] :=
  ⟨by decide, topN_output_empty_of_le_offset [0] [true] 32 5 3 [[[1], [2]]]
    (by decide)⟩

end TidbSort
